import Mathlib

/-!
Verification of `skimage.measure._blur_effect.blur_effect`.

The n-dimensional image is embedded as a shape (list of axis lengths)
together with a total valuation of index vectors in ℚ (floating-point
samples are modelled as rationals).  The external numeric collaborators
named by the specification (ColorReducer, RangeNormalizer,
DirectionalSmoother, EdgeFilter, and the axis-moving / axis-normalising
helpers of the array library) live outside the repository core and are
modelled from the specification's contracts; each such definition carries
a doc comment saying so.  The core function `blur_effect` itself is a
direct transcription of the source.
-/

namespace Skimage

/-- An n-dimensional image: `dims` is the shape (one length per axis) and
`val` gives the sample at an index vector.  Only index vectors that are
componentwise in range are meaningful; `val` is total for convenience. -/
structure Image where
  dims : List Nat
  val : List Nat → ℚ

/-- Number of axes of the image (`image.ndim`). -/
def Image.ndim (img : Image) : Nat := img.dims.length

/-- Elementwise absolute value (`np.abs`). -/
def absImage (a : Image) : Image :=
  { dims := a.dims, val := fun i => |a.val i| }

/-- Elementwise subtraction (`im_sharp - im_blur`). -/
def subImage (a b : Image) : Image :=
  { dims := a.dims, val := fun i => a.val i - b.val i }

/-- Elementwise `np.maximum(0, ·)`. -/
def maxImage0 (a : Image) : Image :=
  { dims := a.dims, val := fun i => max 0 (a.val i) }

/-- Modelled from the spec: EdgeFilter (`skimage.filters.sobel`, not under
`src/`): "applies a directional gradient/edge-detection filter along one
axis, producing signed edge-response values", same shape as its input.
Modelled as the central-difference directional gradient along axis `ax`
with nearest-neighbour boundary handling. -/
def sobel (img : Image) (ax : Nat) : Image :=
  { dims := img.dims,
    val := fun idx =>
      let s := img.dims.getD ax 1
      let i := idx.getD ax 0
      (img.val (idx.set ax (min (i + 1) (s - 1))) - img.val (idx.set ax (i - 1))) / 2 }

/-- Modelled from the spec: DirectionalSmoother
(`scipy.ndimage.uniform_filter1d`, external): "applies a uniform (box)
smoothing filter of a given window size along one axis", same shape as its
input.  Modelled as the mean of a window of `h` samples centred at the
index (offset by `h / 2`), with nearest-neighbour boundary handling. -/
def uniform_filter1d (img : Image) (h : Nat) (ax : Nat) : Image :=
  { dims := img.dims,
    val := fun idx =>
      let s := img.dims.getD ax 1
      let i := idx.getD ax 0
      (((List.range h).map
          (fun j => img.val (idx.set ax (min (i + j - h / 2) (s - 1))))).sum) / h }

/-- Modelled from the spec: RangeNormalizer (`skimage.util.img_as_float`,
not under `src/`): "converts an array of arbitrary numeric dtype to
floating-point values in a canonical range".  Samples are already
modelled as rationals (floating point), on which the conversion is the
identity. -/
def img_as_float (img : Image) : Image := img

/-- Luma weights used by the grayscale reduction. -/
def grayWeight : Nat → ℚ
  | 0 => 2125 / 10000
  | 1 => 7154 / 10000
  | 2 => 721 / 10000
  | _ => 0

/-- Modelled from the spec: ColorReducer (`skimage.color.rgb2gray`, not
under `src/`): "converts a multi-channel array (channels in the final
dimension) to a single-channel intensity array", as the luma-weighted sum
over the last axis. -/
def rgb2gray (img : Image) : Image :=
  { dims := img.dims.dropLast,
    val := fun idx =>
      (((List.range (img.dims.getLastD 1)).map
          (fun c => grayWeight c * img.val (idx ++ [c]))).sum) }

/-- Insert a value at position `k` of an index vector (appending when `k`
exceeds the length). -/
def insertAt : List Nat → Nat → Nat → List Nat
  | l, 0, v => v :: l
  | [], _ + 1, v => [v]
  | x :: l, k + 1, v => x :: insertAt l k v

/-- Modelled from the spec: `np.moveaxis(image, k, -1)` for a normalised
(in-range, non-negative) axis index `k`: "move that axis to the last
position".  The sample at `idx ++ [c]` of the result is the sample of the
original image at `idx` with `c` re-inserted at position `k`. -/
def moveaxis_last (img : Image) (k : Nat) : Image :=
  { dims := img.dims.eraseIdx k ++ [img.dims.getD k 1],
    val := fun idx => img.val (insertAt idx.dropLast k (idx.getLastD 0)) }

/-- Modelled from the spec: numpy's axis-index normalisation used by
`np.moveaxis`: an integer axis `k` is valid iff `-ndim ≤ k < ndim`, a
negative `k` meaning `k + ndim`; an out-of-range axis raises `AxisError`
(here: `none`). -/
def normAxis (ndim : Nat) (k : Int) : Option Nat :=
  if 0 ≤ k ∧ k < (ndim : Int) then some k.toNat
  else if -(ndim : Int) ≤ k ∧ k < 0 then some (k + (ndim : Int)).toNat
  else none

/-- The `channel_axis` argument as the Python caller can pass it: `null`
(`None`), an integer, or a value of some non-integer type. -/
inductive ChannelAxis
  | null : ChannelAxis
  | int (k : Int) : ChannelAxis
  | nonInt : ChannelAxis
deriving DecidableEq

/-- The errors `blur_effect` re-raises from `np.moveaxis`: `AxisError`
for an out-of-range `channel_axis`, `TypeError` for a non-integer one. -/
inductive BlurError
  | axisError : BlurError
  | typeError : BlurError
deriving DecidableEq

/-- A Python float: `NaN` is modelled as `none`, a defined value as
`some q`. -/
abbrev Float' := Option ℚ

/-- The function's return value: the full per-axis list `B` when
`reduce_func is None`, otherwise the scalar `reduce_func(B)`. -/
inductive BlurResult
  | vec (B : List Float') : BlurResult
  | scalar (x : Float') : BlurResult
deriving DecidableEq

/-- One step of the left fold implementing `np.max`: the maximum of two
floats, NaN-absorbing on either side. -/
def npMaxStep (a b : Float') : Float' :=
  match a, b with
  | some a, some b => some (max a b)
  | _, _ => none

/-- Modelled from the spec: the default aggregator `np.max` with its
standard NaN-propagating semantics: the maximum of a list of floats, NaN
(`none`) as soon as any entry is NaN. -/
def npMax (xs : List Float') : Float' :=
  match xs with
  | [] => none
  | x :: rest => rest.foldl npMaxStep x

/-- Interior index range of one axis of length `s`: Python
`slice(2, s - 1)`, i.e. the indices `2, …, s - 2`. -/
def sliceIdx (s : Nat) : List Nat := List.range' 2 (s - 3)

/-- The tuple `slices` of the source: the cross product of `sliceIdx`
over the shape, as the list of all interior index vectors.  It is
computed from the shape alone, once, before the axis loop. -/
def cropIndices : List Nat → List (List Nat)
  | [] => [[]]
  | s :: rest =>
      (sliceIdx s).flatMap (fun i => (cropIndices rest).map (fun t => i :: t))

/-- Sum of the samples of `a` over the interior index vectors of its own
shape: `np.sum(a[slices])`. -/
def croppedSum (a : Image) : ℚ := ((cropIndices a.dims).map a.val).sum

/-- Body of the per-axis loop of `blur_effect` (source lines 93–107), for
an explicitly given interior index list `slices`: smooth along `ax`, take
absolute sobel responses of the image and of the smoothed image, floor
their difference at zero, and form `abs(M1 - M2) / M1` — or NaN (`none`,
with a warning) when `M1 == 0`, in which case `M2` is never computed. -/
def axisMetricWith (slices : List (List Nat)) (image : Image) (h_size ax : Nat) :
    Float' :=
  let filt_im := uniform_filter1d image h_size ax
  let im_sharp := absImage (sobel image ax)
  let im_blur := absImage (sobel filt_im ax)
  let T := maxImage0 (subImage im_sharp im_blur)
  let M1 := ((slices.map im_sharp.val).sum)
  if M1 = 0 then none
  else
    let M2 := ((slices.map T.val).sum)
    some (|M1 - M2| / M1)

/-- The list `B` built by the axis loop (source lines 88–107): `n_axes`
is read off before normalisation, the image is range-normalised, `slices`
is computed once from its shape, and the loop appends one entry per axis
`ax = 0, …, n_axes - 1` in order. -/
def blurVector (image : Image) (h_size : Nat) : List Float' :=
  let n_axes := image.ndim
  let image := img_as_float image
  let slices := cropIndices image.dims
  (List.range n_axes).map (fun ax => axisMetricWith slices image h_size ax)

/-- The axes for which the loop emits its `RuntimeWarning` (exactly the
axes whose entry is the NaN sentinel, i.e. those with `M1 == 0`), in the
order the loop visits them. -/
def blurWarns (image : Image) (h_size : Nat) : List Nat :=
  let image := img_as_float image
  let slices := cropIndices image.dims
  (List.range image.ndim).filter
    (fun ax => (axisMetricWith slices image h_size ax).isNone)

/-- Source lines 84–110 of `blur_effect`: everything after the optional
channel-axis reduction.  The result is paired with the list of axes that
were warned about. -/
def blurMain (image : Image) (h_size : Nat)
    (reduce_func : Option (List Float' → Float')) :
    Except BlurError (BlurResult × List Nat) :=
  let B := blurVector image h_size
  let warns := blurWarns image h_size
  match reduce_func with
  | none => .ok (.vec B, warns)
  | some f => .ok (.scalar (f B), warns)

/-- The function `skimage.measure.blur_effect` (source lines 21–110).
When `channel_axis` is given, the axis is moved to the last position
(`np.moveaxis`, re-raising `AxisError` / `TypeError` for an out-of-range
or non-integer axis before any numeric work) and the image reduced to
grayscale; then the per-axis loop runs and the result is `B` itself when
`reduce_func is None`, else `reduce_func B`. -/
def blur_effect (image : Image) (h_size : Nat) (channel_axis : ChannelAxis)
    (reduce_func : Option (List Float' → Float')) :
    Except BlurError (BlurResult × List Nat) :=
  match channel_axis with
  | .nonInt => .error .typeError
  | .int k =>
      match normAxis image.ndim k with
      | none => .error .axisError
      | some k' => blurMain (rgb2gray (moveaxis_last image k')) h_size reduce_func
  | .null => blurMain image h_size reduce_func

/-! ### The claim-side reading of the per-axis quantities

The definitions `sharpEdges`, `blurredEdges`, `residual`, `M1`, `M2`
spell out, in terms of the embedded operations, the quantities the loop
computes; the theorems below relate the entries of `blurVector` to
them. -/

/-- The array `im_sharp`: absolute edge response of the normalised image
along `ax`. -/
def sharpEdges (image : Image) (ax : Nat) : Image :=
  absImage (sobel (img_as_float image) ax)

/-- The array `im_blur`: absolute edge response, along `ax`, of the
normalised image smoothed along `ax` by the uniform filter of size
`h_size`. -/
def blurredEdges (image : Image) (h_size ax : Nat) : Image :=
  absImage (sobel (uniform_filter1d (img_as_float image) h_size ax) ax)

/-- The array `T = np.maximum(0, im_sharp - im_blur)`. -/
def residual (image : Image) (h_size ax : Nat) : Image :=
  maxImage0 (subImage (sharpEdges image ax) (blurredEdges image h_size ax))

/-- The scalar `M1 = np.sum(im_sharp[slices])`. -/
def M1 (image : Image) (ax : Nat) : ℚ := croppedSum (sharpEdges image ax)

/-- The scalar `M2 = np.sum(T[slices])`. -/
def M2 (image : Image) (h_size ax : Nat) : ℚ :=
  croppedSum (residual image h_size ax)

/-! ### Concrete images used by the witnesses -/

/-- A 1-D ramp of length 4 (one interior crop point, nonzero edges). -/
def ramp4 : Image := { dims := [4], val := fun idx => (idx.getD 0 0 : ℚ) }

/-- The 2-D all-zero 20×20 image of Scenario 1. -/
def zero20 : Image := { dims := [20, 20], val := fun _ => 0 }

/-- A 1-D image of length 10 (used to exhibit the crop bounds). -/
def img10 : Image := { dims := [10], val := fun _ => 0 }

/-- A 3-channel image of shape 4×4×3 (channels on axis 2). -/
def img3c : Image := { dims := [4, 4, 3], val := fun idx => (idx.getD 0 0 : ℚ) }

/-- A 3-axis single-channel image of shape 5×6×7. -/
def img3 : Image := { dims := [5, 6, 7], val := fun idx => (idx.getD 0 0 : ℚ) }

/-- A 3×20 image with strong edges along axis 1 but a first axis of
length 3, so the interior crop is empty. -/
def edgy3 : Image := { dims := [3, 20], val := fun idx => (idx.getD 1 0 : ℚ) }

/-- A constant 1-D image of length 5. -/
def const5 : Image := { dims := [5], val := fun _ => 0 }

/-! ### Helper lemmas -/

lemma mem_sliceIdx {s a : Nat} : a ∈ sliceIdx s ↔ 2 ≤ a ∧ a + 1 < s := by
  simp only [sliceIdx, List.mem_range'_1]
  omega

lemma mem_cropIndices : ∀ {dims i : List Nat},
    i ∈ cropIndices dims ↔
      i.length = dims.length ∧
      ∀ d, d < dims.length → 2 ≤ i.getD d 0 ∧ i.getD d 0 + 1 < dims.getD d 0 := by
  intro dims
  induction dims with
  | nil =>
    intro i
    constructor
    · intro hi
      simp [cropIndices] at hi
      simp [hi]
    · intro ⟨hlen, _⟩
      have : i = [] := List.eq_nil_of_length_eq_zero hlen
      simp [cropIndices, this]
  | cons s rest ih =>
    intro i
    simp only [cropIndices, List.mem_flatMap, List.mem_map]
    constructor
    · rintro ⟨a, ha, t, ht, rfl⟩
      obtain ⟨h2a, h2b⟩ := mem_sliceIdx.mp ha
      obtain ⟨hlen, hall⟩ := ih.mp ht
      refine ⟨by simp [hlen], ?_⟩
      intro d hd
      cases d with
      | zero => simpa using ⟨h2a, h2b⟩
      | succ d => simpa using hall d (by simpa using hd)
    · rintro ⟨hlen, hall⟩
      cases i with
      | nil => simp at hlen
      | cons a t =>
        refine ⟨a, mem_sliceIdx.mpr ?_, t, ih.mpr ⟨by simpa using hlen, ?_⟩, rfl⟩
        · simpa using hall 0 (by simp)
        · intro d hd
          simpa using hall (d + 1) (by simpa using hd)

lemma cropIndices_eq_nil {dims : List Nat} {d : Nat} (hd : d < dims.length)
    (hsmall : dims.getD d 0 ≤ 3) : cropIndices dims = [] := by
  rw [List.eq_nil_iff_forall_not_mem]
  intro i hi
  have h := (mem_cropIndices.mp hi).2 d hd
  omega

lemma axisMetricWith_crop (image : Image) (h_size ax : Nat) :
    axisMetricWith (cropIndices image.dims) image h_size ax =
      if M1 image ax = 0 then none
      else some (|M1 image ax - M2 image h_size ax| / M1 image ax) := rfl

lemma blurVector_length (image : Image) (h_size : Nat) :
    (blurVector image h_size).length = image.ndim := by
  simp [blurVector]

lemma blurVector_getElem? (image : Image) (h_size ax : Nat) (hax : ax < image.ndim) :
    (blurVector image h_size)[ax]? =
      some (axisMetricWith (cropIndices image.dims) image h_size ax) := by
  simp [blurVector, img_as_float, List.getElem?_map, List.getElem?_range hax]

lemma M1_nonneg (image : Image) (ax : Nat) : 0 ≤ M1 image ax := by
  apply List.sum_nonneg
  intro x hx
  obtain ⟨i, _, rfl⟩ := List.mem_map.mp hx
  exact abs_nonneg _

lemma M2_nonneg (image : Image) (h_size ax : Nat) : 0 ≤ M2 image h_size ax := by
  apply List.sum_nonneg
  intro x hx
  obtain ⟨i, _, rfl⟩ := List.mem_map.mp hx
  exact le_max_left _ _

lemma M2_le_M1 (image : Image) (h_size ax : Nat) : M2 image h_size ax ≤ M1 image ax := by
  show ((cropIndices image.dims).map (residual image h_size ax).val).sum ≤
    ((cropIndices image.dims).map (sharpEdges image ax).val).sum
  apply List.sum_le_sum
  intro i _
  show max 0 ((sharpEdges image ax).val i - (blurredEdges image h_size ax).val i) ≤
    (sharpEdges image ax).val i
  refine max_le (abs_nonneg _) (sub_le_self _ (abs_nonneg _))

lemma M1_const_zero (image : Image) (c : ℚ) (hconst : ∀ idx, image.val idx = c) (ax : Nat) :
    M1 image ax = 0 := by
  apply List.sum_eq_zero
  intro x hx
  obtain ⟨i, _, rfl⟩ := List.mem_map.mp hx
  show |(sobel (img_as_float image) ax).val i| = 0
  simp [sobel, img_as_float, hconst]

lemma blurVector_all_none (image : Image) (h_size : Nat)
    (h : ∀ ax, ax < image.ndim → M1 image ax = 0) :
    blurVector image h_size = List.replicate image.ndim none ∧
    blurWarns image h_size = List.range image.ndim := by
  constructor
  · have hmem : ∀ b ∈ blurVector image h_size, b = none := by
      intro b hb
      obtain ⟨ax, hax, rfl⟩ := by
        simpa [blurVector, img_as_float, List.mem_map, List.mem_range] using hb
      rw [axisMetricWith_crop, if_pos (h ax hax)]
    have := List.eq_replicate_of_mem hmem
    rwa [blurVector_length] at this
  · rw [show blurWarns image h_size =
        (List.range image.ndim).filter
          (fun ax => (axisMetricWith (cropIndices image.dims) image h_size ax).isNone) from rfl,
      List.filter_eq_self]
    intro ax hax
    rw [List.mem_range] at hax
    rw [axisMetricWith_crop, if_pos (h ax hax)]
    rfl

lemma npMaxStep_none_left (b : Float') : npMaxStep none b = none := by
  cases b <;> rfl

lemma npMaxStep_none_right (a : Float') : npMaxStep a none = none := by
  cases a <;> rfl

lemma npMax_foldl_none (l : List Float') : l.foldl npMaxStep none = none := by
  induction l with
  | nil => rfl
  | cons x t ih => rw [List.foldl_cons, npMaxStep_none_left]; exact ih

lemma npMax_foldl_mem (l : List Float') (a : Float') (h : none ∈ l) :
    l.foldl npMaxStep a = none := by
  induction l generalizing a with
  | nil => simp at h
  | cons x t ih =>
    rw [List.foldl_cons]
    rcases List.mem_cons.mp h with hx | ht
    · rw [← hx, npMaxStep_none_right]
      exact npMax_foldl_none t
    · exact ih _ ht

lemma npMax_eq_none_of_mem {xs : List Float'} (h : none ∈ xs) : npMax xs = none := by
  match xs with
  | [] => simp at h
  | x :: rest =>
    rw [npMax]
    rcases List.mem_cons.mp h with hx | ht
    · rw [← hx]
      exact npMax_foldl_none rest
    · exact npMax_foldl_mem rest x ht

/-! ### The claims -/

/-- **C1**: for every image and every axis `ax` (of the post-reduction
image) on which `M1 ≠ 0`, the blur-vector entry appended for `ax` is
`abs(M1 - M2) / M1`, where `M1` sums the absolute edge response of the
normalised image along `ax` over the cropped interior, and `M2` sums
`max(0, im_sharp - im_blur)` over the same cropped interior, `im_blur`
being the absolute edge response of the image smoothed along `ax` by the
uniform filter of size `h_size`. -/
theorem blur_entry_eq_ratio (image : Image) (h_size ax : Nat) (hax : ax < image.ndim)
    (hM1 : M1 image ax ≠ 0) :
    (blurVector image h_size)[ax]? =
      some (some (|M1 image ax - M2 image h_size ax| / M1 image ax)) := by
  rw [blurVector_getElem? image h_size ax hax, axisMetricWith_crop, if_neg hM1]

/-- Witness for C1 at the concrete ramp image of length 4. -/
theorem blur_entry_eq_ratio_witness :
    (blurVector ramp4 1)[0]? =
      some (some (|M1 ramp4 0 - M2 ramp4 1 0| / M1 ramp4 0)) := by
  refine blur_entry_eq_ratio ramp4 1 0 (by decide) ?_
  simp [M1, croppedSum, cropIndices, sliceIdx, sharpEdges, absImage, sobel, img_as_float, ramp4]
  norm_num

/-- **C2**: every defined entry of the blur vector lies in `[0, 1]`:
whenever the entry for an axis is a proper value `v` (not the NaN
sentinel), `0 ≤ v ≤ 1`; the proof goes through `0 ≤ M2 ≤ M1`. -/
theorem blur_entry_in_unit_interval (image : Image) (h_size ax : Nat) (v : ℚ)
    (hv : (blurVector image h_size)[ax]? = some (some v)) : 0 ≤ v ∧ v ≤ 1 := by
  have hax : ax < image.ndim := by
    have := (List.getElem?_eq_some_iff.mp hv).1
    rwa [blurVector_length] at this
  rw [blurVector_getElem? image h_size ax hax, axisMetricWith_crop] at hv
  by_cases hM1 : M1 image ax = 0
  · rw [if_pos hM1] at hv; simp at hv
  · rw [if_neg hM1] at hv
    have hv' : |M1 image ax - M2 image h_size ax| / M1 image ax = v := by
      simpa using hv
    have h0 : 0 ≤ M1 image ax := M1_nonneg image ax
    have hpos : 0 < M1 image ax := lt_of_le_of_ne h0 (Ne.symm hM1)
    have hle : M2 image h_size ax ≤ M1 image ax := M2_le_M1 image h_size ax
    have habs : |M1 image ax - M2 image h_size ax| = M1 image ax - M2 image h_size ax :=
      abs_of_nonneg (sub_nonneg.mpr hle)
    rw [habs] at hv'
    constructor
    · rw [← hv']
      exact div_nonneg (sub_nonneg.mpr hle) h0
    · rw [← hv']
      rw [div_le_one hpos]
      have := M2_nonneg image h_size ax
      linarith

/-- Witness for C2 at the concrete ramp image of length 4. -/
theorem blur_entry_in_unit_interval_witness :
    0 ≤ |M1 ramp4 0 - M2 ramp4 1 0| / M1 ramp4 0 ∧
    |M1 ramp4 0 - M2 ramp4 1 0| / M1 ramp4 0 ≤ 1 := by
  refine blur_entry_in_unit_interval ramp4 1 0 _ ?_
  simp [blurVector, axisMetricWith, M1, M2, croppedSum, cropIndices, sliceIdx, sharpEdges,
    blurredEdges, residual, absImage, subImage, maxImage0, sobel, uniform_filter1d,
    img_as_float, ramp4, Image.ndim, List.range']
  norm_num

/-- **C3**: on every axis with `M1 = 0` the function appends the NaN
sentinel, records that axis in the warning list, and still produces one
entry for every axis; for every `reduce_func` the whole call returns a
normal (`.ok`) result, never aborting.  (That `M2` is not computed on
such an axis is structural: the `M1 = 0` branch of `axisMetricWith`
returns before the `M2` sum is formed.) -/
theorem zero_M1_warns_and_continues (image : Image) (h_size ax : Nat)
    (hax : ax < image.ndim) (hM1 : M1 image ax = 0) :
    (blurVector image h_size)[ax]? = some none ∧
    ax ∈ blurWarns image h_size ∧
    (blurVector image h_size).length = image.ndim ∧
    ∀ r, blur_effect image h_size .null r =
      (match r with
       | none => .ok (.vec (blurVector image h_size), blurWarns image h_size)
       | some f => .ok (.scalar (f (blurVector image h_size)), blurWarns image h_size)) := by
  refine ⟨?_, ?_, blurVector_length image h_size, ?_⟩
  · rw [blurVector_getElem? image h_size ax hax, axisMetricWith_crop, if_pos hM1]
  · rw [show blurWarns image h_size =
        (List.range image.ndim).filter
          (fun a => (axisMetricWith (cropIndices image.dims) image h_size a).isNone) from rfl]
    rw [List.mem_filter, List.mem_range]
    exact ⟨hax, by rw [axisMetricWith_crop, if_pos hM1]; rfl⟩
  · intro r
    cases r <;> rfl

/-- Witness for C3 at a constant image of length 5 (where `M1 = 0`). -/
theorem zero_M1_warns_and_continues_witness :
    (blurVector const5 1)[0]? = some none ∧
    0 ∈ blurWarns const5 1 ∧
    (blurVector const5 1).length = Image.ndim const5 ∧
    ∀ r, blur_effect const5 1 .null r =
      (match r with
       | none => .ok (.vec (blurVector const5 1), blurWarns const5 1)
       | some f => .ok (.scalar (f (blurVector const5 1)), blurWarns const5 1)) :=
  zero_M1_warns_and_continues const5 1 0 (by decide) (M1_const_zero const5 0 (fun _ => rfl) 0)

/-- **C4**: the interior region summed over is `cropIndices image.dims`,
computed from the shape alone (hence independent of the current axis and
of `h_size`); its members are exactly the index vectors lying in
`[2, axis_length - 1)` on every axis; and the identical index list is
used both for the `M1` sum and the `M2` sum, and for every axis of the
loop. -/
theorem crop_interior_fixed_and_shared (image : Image) (h_size ax : Nat) :
    M1 image ax = ((cropIndices image.dims).map (sharpEdges image ax).val).sum ∧
    M2 image h_size ax = ((cropIndices image.dims).map (residual image h_size ax).val).sum ∧
    (∀ i, i ∈ cropIndices image.dims ↔
      i.length = image.dims.length ∧
      ∀ d, d < image.dims.length →
        2 ≤ i.getD d 0 ∧ i.getD d 0 + 1 < image.dims.getD d 0) ∧
    blurVector image h_size =
      (List.range image.ndim).map
        (fun a => axisMetricWith (cropIndices image.dims) image h_size a) :=
  ⟨rfl, rfl, fun _ => mem_cropIndices, rfl⟩

/-- Witness for C4 at the concrete image of shape `[10]`. -/
theorem crop_interior_fixed_and_shared_witness :
    M1 img10 0 = ((cropIndices img10.dims).map (sharpEdges img10 0).val).sum ∧
    M2 img10 11 0 = ((cropIndices img10.dims).map (residual img10 11 0).val).sum ∧
    (∀ i, i ∈ cropIndices img10.dims ↔
      i.length = img10.dims.length ∧
      ∀ d, d < img10.dims.length →
        2 ≤ i.getD d 0 ∧ i.getD d 0 + 1 < img10.dims.getD d 0) ∧
    blurVector img10 11 =
      (List.range img10.ndim).map
        (fun a => axisMetricWith (cropIndices img10.dims) img10 11 a) :=
  crop_interior_fixed_and_shared img10 11 0

/-- Counterexample to C5 as stated: on an axis of length 10 the crop is
NOT confined to a 2-pixel-or-more border on every side — the index
vector `[8]` belongs to the interior crop although its distance to the
end border (`10 - 1 - 8 = 1`) is a single pixel. -/
theorem crop_two_pixel_border_counterexample :
    ¬ (∀ i ∈ cropIndices [10], ∀ d, d < 1 →
        2 ≤ i.getD d 0 ∧ i.getD d 0 + 2 ≤ 10 - 1) := by decide

/-- **C5** (amended): the cropped interior region over which `M1` and
`M2` are summed excludes 2 pixels at the start but only 1 pixel at the
end of every axis (so actual border pixels are never included, while
pixels within the smoothing kernel radius may be); the identical crop is
used for the `M1` and the `M2` sums. -/
theorem crop_bounds_amended (image : Image) (h_size ax : Nat) (i : List Nat)
    (hi : i ∈ cropIndices image.dims) (d : Nat) (hd : d < image.dims.length) :
    (2 ≤ i.getD d 0 ∧ i.getD d 0 + 1 < image.dims.getD d 0) ∧
    M1 image ax = ((cropIndices image.dims).map (sharpEdges image ax).val).sum ∧
    M2 image h_size ax = ((cropIndices image.dims).map (residual image h_size ax).val).sum := by
  have h := (mem_cropIndices.mp hi).2 d hd
  exact ⟨h, rfl, rfl⟩

/-- Witness for the amended C5 at the index vector `[5]` of the shape
`[10]` image. -/
theorem crop_bounds_amended_witness :
    (2 ≤ List.getD [5] 0 0 ∧ List.getD [5] 0 0 + 1 < List.getD img10.dims 0 0) ∧
    M1 img10 0 = ((cropIndices img10.dims).map (sharpEdges img10 0).val).sum ∧
    M2 img10 11 0 = ((cropIndices img10.dims).map (residual img10 11 0).val).sum :=
  crop_bounds_amended img10 11 0 [5] (by decide) 0 (by decide)

/-- **C6**: on a perfectly constant image every axis has `M1 = 0`, the
blur vector is all NaN, and exactly one warning is recorded per axis; in
particular the all-zero 20×20 image with the default window size and the
default `np.max` aggregator yields the vector `[NaN, NaN]`, two warnings
(axes 0 and 1), and the aggregated scalar NaN — the default aggregator
maps any list containing NaN to NaN. -/
theorem uniform_image_all_nan (image : Image) (c : ℚ) (h_size : Nat)
    (hconst : ∀ idx, image.val idx = c) :
    (∀ ax, M1 image ax = 0) ∧
    blurVector image h_size = List.replicate image.ndim none ∧
    blurWarns image h_size = List.range image.ndim ∧
    (∀ ax, ax < image.ndim → List.count ax (blurWarns image h_size) = 1) ∧
    blurVector zero20 11 = [none, none] ∧
    blurWarns zero20 11 = [0, 1] ∧
    blur_effect zero20 11 .null (some npMax) = .ok (.scalar none, [0, 1]) ∧
    (∀ xs : List Float', none ∈ xs → npMax xs = none) := by
  have hM : ∀ ax, M1 image ax = 0 := M1_const_zero image c hconst
  obtain ⟨hv, hw⟩ := blurVector_all_none image h_size (fun ax _ => hM ax)
  have hzM : ∀ ax, M1 zero20 ax = 0 := M1_const_zero zero20 0 (fun _ => rfl)
  obtain ⟨hzv, hzw⟩ := blurVector_all_none zero20 11 (fun ax _ => hzM ax)
  have hzv' : blurVector zero20 11 = [none, none] := by
    rw [hzv]; rfl
  have hzw' : blurWarns zero20 11 = [0, 1] := by
    rw [hzw]; rfl
  refine ⟨hM, hv, hw, ?_, hzv', hzw', ?_, fun xs h => npMax_eq_none_of_mem h⟩
  · intro ax hax
    rw [hw]
    exact List.count_eq_one_of_mem (List.nodup_range _) (List.mem_range.mpr hax)
  · have h1 : blur_effect zero20 11 ChannelAxis.null (some npMax) =
        Except.ok (BlurResult.scalar (npMax (blurVector zero20 11)), blurWarns zero20 11) := rfl
    rw [h1, hzv', hzw']
    rfl

/-- Witness for C6 at the all-zero 20×20 image. -/
theorem uniform_image_all_nan_witness :
    (∀ ax, M1 zero20 ax = 0) ∧
    blurVector zero20 11 = List.replicate zero20.ndim none ∧
    blurWarns zero20 11 = List.range zero20.ndim ∧
    (∀ ax, ax < zero20.ndim → List.count ax (blurWarns zero20 11) = 1) ∧
    blurVector zero20 11 = [none, none] ∧
    blurWarns zero20 11 = [0, 1] ∧
    blur_effect zero20 11 .null (some npMax) = .ok (.scalar none, [0, 1]) ∧
    (∀ xs : List Float', none ∈ xs → npMax xs = none) :=
  uniform_image_all_nan zero20 0 11 (fun _ => rfl)

/-- **C7**: an out-of-range integer `channel_axis` makes the call fail
with `AxisError`, and a non-integer `channel_axis` with `TypeError`,
before any numeric work: the result is the bare error (no vector, no
warnings) and does not depend on the image samples — any image of the
same number of axes gives the identical error. -/
theorem invalid_channel_axis_errors (image : Image) (h_size : Nat)
    (r : Option (List Float' → Float')) (k : Int)
    (hk : normAxis image.ndim k = none) :
    blur_effect image h_size (.int k) r = .error .axisError ∧
    blur_effect image h_size .nonInt r = .error .typeError ∧
    (∀ image2 : Image, image2.ndim = image.ndim →
      blur_effect image2 h_size (.int k) r = .error .axisError) := by
  refine ⟨?_, rfl, ?_⟩
  · simp [blur_effect, hk]
  · intro image2 h2
    have hk2 : normAxis image2.ndim k = none := by rw [h2]; exact hk
    simp [blur_effect, hk2]

/-- Witness for C7: `channel_axis = 5` on a 3-axis, 3-channel image
(Scenario 3). -/
theorem invalid_channel_axis_errors_witness :
    blur_effect img3c 11 (.int 5) none = .error .axisError ∧
    blur_effect img3c 11 .nonInt none = .error .typeError ∧
    (∀ image2 : Image, image2.ndim = img3c.ndim →
      blur_effect image2 11 (.int 5) none = .error .axisError) :=
  invalid_channel_axis_errors img3c 11 none 5 (by decide)

/-- **C8**: with `reduce_func = None` the call returns the full per-axis
vector; its length is the number of axes of the image the loop runs on
(the input image for `channel_axis = None`, the grayscale-reduced image
otherwise), and its entry at index `ax` is the per-axis metric of axis
`ax`, so the entries are in axis order `0 … ndim - 1`. -/
theorem vector_length_and_order (image : Image) (h_size ax : Nat) (hax : ax < image.ndim) :
    blur_effect image h_size .null none =
      .ok (.vec (blurVector image h_size), blurWarns image h_size) ∧
    (blurVector image h_size).length = image.ndim ∧
    (blurVector image h_size)[ax]? =
      some (axisMetricWith (cropIndices image.dims) image h_size ax) ∧
    (∀ (k : Int) (k' : Nat), normAxis image.ndim k = some k' →
      blur_effect image h_size (.int k) none =
        .ok (.vec (blurVector (rgb2gray (moveaxis_last image k')) h_size),
             blurWarns (rgb2gray (moveaxis_last image k')) h_size) ∧
      (blurVector (rgb2gray (moveaxis_last image k')) h_size).length =
        (rgb2gray (moveaxis_last image k')).ndim) := by
  refine ⟨rfl, blurVector_length image h_size, blurVector_getElem? image h_size ax hax, ?_⟩
  intro k k' hk
  constructor
  · simp [blur_effect, hk]
    rfl
  · exact blurVector_length _ h_size

/-- Witness for C8 at a 3-axis image of shape 5×6×7 (Scenario 4). -/
theorem vector_length_and_order_witness :
    blur_effect img3 11 .null none =
      .ok (.vec (blurVector img3 11), blurWarns img3 11) ∧
    (blurVector img3 11).length = img3.ndim ∧
    (blurVector img3 11)[2]? =
      some (axisMetricWith (cropIndices img3.dims) img3 11 2) ∧
    (∀ (k : Int) (k' : Nat), normAxis img3.ndim k = some k' →
      blur_effect img3 11 (.int k) none =
        .ok (.vec (blurVector (rgb2gray (moveaxis_last img3 k')) 11),
             blurWarns (rgb2gray (moveaxis_last img3 k')) 11) ∧
      (blurVector (rgb2gray (moveaxis_last img3 k')) 11).length =
        (rgb2gray (moveaxis_last img3 k')).ndim) :=
  vector_length_and_order img3 11 2 (by decide)

/-- **C9**: calling with a valid `channel_axis = k` (normalising to `k'`)
is the same as first moving axis `k'` to the last position, reducing to
grayscale with the same ColorReducer, and calling with
`channel_axis = None` and all other parameters equal. -/
theorem channel_axis_equivalence (image : Image) (h_size : Nat)
    (r : Option (List Float' → Float')) (k : Int) (k' : Nat)
    (hk : normAxis image.ndim k = some k') :
    blur_effect image h_size (.int k) r =
      blur_effect (rgb2gray (moveaxis_last image k')) h_size .null r := by
  simp [blur_effect, hk]

/-- Witness for C9: channels on axis 2 of the 4×4×3 image. -/
theorem channel_axis_equivalence_witness :
    blur_effect img3c 11 (.int 2) none =
      blur_effect (rgb2gray (moveaxis_last img3c 2)) 11 .null none :=
  channel_axis_equivalence img3c 11 none 2 2 (by decide)

/-- **C10**: whenever some axis of the (post-reduction) image has length
at most 3, the interior crop is empty, so `M1 = 0` on every axis and the
whole blur vector is the NaN sentinel with one warning per axis — even
when the image has strong edges. -/
theorem short_axis_empty_crop_nan (image : Image) (h_size d : Nat)
    (hd : d < image.dims.length) (hsmall : image.dims.getD d 0 ≤ 3) :
    cropIndices image.dims = [] ∧
    (∀ ax, M1 image ax = 0) ∧
    blurVector image h_size = List.replicate image.ndim none ∧
    blurWarns image h_size = List.range image.ndim := by
  have hnil := cropIndices_eq_nil hd hsmall
  have hM : ∀ ax, M1 image ax = 0 := by
    intro ax
    show ((cropIndices image.dims).map (sharpEdges image ax).val).sum = 0
    rw [hnil]
    rfl
  obtain ⟨hv, hw⟩ := blurVector_all_none image h_size (fun ax _ => hM ax)
  exact ⟨hnil, hM, hv, hw⟩

/-- Witness for C10 at a 3×20 image whose values ramp strongly along
axis 1. -/
theorem short_axis_empty_crop_nan_witness :
    cropIndices edgy3.dims = [] ∧
    (∀ ax, M1 edgy3 ax = 0) ∧
    blurVector edgy3 11 = List.replicate edgy3.ndim none ∧
    blurWarns edgy3 11 = List.range edgy3.ndim :=
  short_axis_empty_crop_nan edgy3 11 0 (by decide) (by decide)

end Skimage
